import Mathlib

/-!
Verification development for the frame-extraction engine of `frame-extractor-pro`.

The repository ships several implementations of the same pipeline:

* a main-thread WebCodecs fast path and a seek-based legacy (fallback)
  extractor, in two revisions of `src/components/VideoFrameExtractor.tsx`
  (the first revision up to the document break around line 590, the second
  revision after it);
* a worker fast path in `src/workers/videoDecoder.worker.ts`;
* a parallel image-encoding worker in `src/workers/frameProcessor.worker.ts`.

Below, each definition embeds one piece of that TypeScript source:
timestamps and durations are rationals (microseconds), decoded frames are
reduced to their presentation timestamps, compressed samples and image
blobs are reduced to natural-number identifiers, and the platform pieces
(decoder, parser, canvas) appear as the data they feed into the embedded
control flow.
-/

/-- `frameIntervalMicroseconds fps` embeds
`const frameIntervalMicroseconds = 1000000 / settings.fps` from the decoder
output sampling state (worker `videoDecoder.worker.ts` line 127 and both
revisions of `VideoFrameExtractor.tsx`, lines 109 and 709). -/
def frameIntervalMicroseconds (fps : ℚ) : ℚ := 1000000 / fps

/-- `runSampler g last ts` embeds the fixed-rate sampling decision made
inside the decoder `output` callback for each decoded frame, in
presentation order: keep the frame with timestamp `t` when
`t - lastExtractedTimestamp >= frameIntervalMicroseconds * k` (the
threshold `g` is `frameIntervalMicroseconds * k`), and then set
`lastExtractedTimestamp = t`; otherwise leave the state unchanged.
Source: `videoDecoder.worker.ts` lines 182-212 and
`VideoFrameExtractor.tsx` lines 118-141 (tolerance 0.85) and 749-777
(tolerance 0.9). The returned list is the sequence of kept timestamps. -/
def runSampler (g : ℚ) : ℚ → List ℚ → List ℚ
  | _, [] => []
  | last, t :: ts =>
    if g ≤ t - last then t :: runSampler g t ts else runSampler g last ts

/-- `keptTimestamps fps k ts` runs the sampler the way each extraction
path initialises it: threshold `frameIntervalMicroseconds * k` and
`lastExtractedTimestamp` starting at `-frameIntervalMicroseconds`
(worker line 128, `VideoFrameExtractor.tsx` lines 110 and 710). -/
def keptTimestamps (fps k : ℚ) (ts : List ℚ) : List ℚ :=
  runSampler (frameIntervalMicroseconds fps * k) (-(frameIntervalMicroseconds fps)) ts

/-- Helper for stating the sampler lemmas: `List.Chain'` of a `List.Chain`
whose head link is dropped. -/
theorem chain'_of_chain {R : ℚ → ℚ → Prop} {a : ℚ} :
    ∀ {l : List ℚ}, List.Chain R a l → List.Chain' R l
  | [], _ => List.chain'_nil
  | _ :: _, List.Chain.cons _ h => h

/-- The sampler state invariant: starting from any `lastExtractedTimestamp`,
every kept timestamp is at least `g` above the previous kept timestamp
(or above the initial state for the first kept frame). -/
theorem chain_runSampler (g : ℚ) :
    ∀ (last : ℚ) (ts : List ℚ),
      List.Chain (fun a b => a + g ≤ b) last (runSampler g last ts) := by
  intro last ts
  induction ts generalizing last with
  | nil => exact List.Chain.nil
  | cons t rest ih =>
    by_cases h : g ≤ t - last
    · rw [runSampler, if_pos h]
      exact List.Chain.cons (by linarith) (ih t)
    · rw [runSampler, if_neg h]
      exact ih last

/-- Every timestamp the sampler keeps is one of the decoded-frame
timestamps it was shown. -/
theorem runSampler_subset (g : ℚ) :
    ∀ (last : ℚ) (ts : List ℚ), ∀ t ∈ runSampler g last ts, t ∈ ts := by
  intro last ts
  induction ts generalizing last with
  | nil => intro t ht; rw [runSampler] at ht; cases ht
  | cons x rest ih =>
    intro t ht
    by_cases h : g ≤ x - last
    · rw [runSampler, if_pos h] at ht
      rcases List.mem_cons.mp ht with rfl | ht'
      · exact List.mem_cons_self _ _
      · exact List.mem_cons_of_mem _ (ih x t ht')
    · rw [runSampler, if_neg h] at ht
      exact List.mem_cons_of_mem _ (ih last t ht)

/-- Along a chain with gaps of at least `g`, the last element is at least
`length * g` above the starting point. -/
theorem chain_getLastD (g : ℚ) :
    ∀ (l : List ℚ) (a : ℚ), List.Chain (fun p q => p + g ≤ q) a l →
      a + l.length * g ≤ l.getLastD a := by
  intro l
  induction l with
  | nil => intro a _; simp
  | cons b t ih =>
    intro a h
    cases h with
    | cons hab hbt =>
      have hb := ih b hbt
      rw [List.getLastD_cons, List.length_cons]
      push_cast
      linarith

/-- `getLastD` of a nonempty list is a member of the list. -/
theorem getLastD_mem : ∀ (l : List ℚ) (a : ℚ), l ≠ [] → l.getLastD a ∈ l := by
  intro l
  induction l with
  | nil => intro a h; exact absurd rfl h
  | cons b t ih =>
    intro a _
    rw [List.getLastD_cons]
    cases t with
    | nil => simp [List.getLastD]
    | cons c u => exact List.mem_cons_of_mem _ (ih b (by simp))

/-- Claim C1: for every extraction run and every sequence of decoded
frames delivered to the sampler with strictly increasing presentation
timestamps, the sequence of timestamps the fixed-rate sampler keeps is
strictly increasing, and every pair of consecutive kept timestamps
differs by at least `interval * k`, where
`interval = 1000000 / settings.fps` microseconds and `k` is the path's
tolerance factor (0.85 in the first `VideoFrameExtractor.tsx` revision,
0.9 in the worker and the second revision, 0.95 in the prototype page).
The initial state `lastExtractedTimestamp = -interval` is part of the
definition of `keptTimestamps`. -/
theorem c1_sampling_monotonicity (fps k : ℚ) (ts : List ℚ)
    (hmono : List.Chain' (· < ·) ts) (hfps : 0 < fps)
    (hk : k = 85 / 100 ∨ k = 9 / 10 ∨ k = 95 / 100) :
    List.Chain'
      (fun a b => a < b ∧ a + frameIntervalMicroseconds fps * k ≤ b)
      (keptTimestamps fps k ts) := by
  have hiv : 0 < frameIntervalMicroseconds fps := by
    rw [frameIntervalMicroseconds]; positivity
  have hkpos : 0 < k := by rcases hk with rfl | rfl | rfl <;> norm_num
  have hg : 0 < frameIntervalMicroseconds fps * k := mul_pos hiv hkpos
  have hchain :
      List.Chain (fun a b => a + frameIntervalMicroseconds fps * k ≤ b)
        (-(frameIntervalMicroseconds fps)) (keptTimestamps fps k ts) :=
    chain_runSampler _ _ ts
  have h' := chain'_of_chain hchain
  exact h'.imp (fun {a b} hab => ⟨by linarith, hab⟩)

/-- Witness for claim C1 at a concrete run: source at 2 fps worth of
frames, requested 1 fps, worker tolerance 0.9. -/
theorem c1_sampling_monotonicity_witness :
    List.Chain' (· < ·) [(0 : ℚ), 500000, 1000000] ∧ (0 : ℚ) < 1 ∧
      List.Chain'
        (fun a b => a < b ∧ a + frameIntervalMicroseconds 1 * (9 / 10) ≤ b)
        (keptTimestamps 1 (9 / 10) [0, 500000, 1000000]) :=
  ⟨by norm_num [List.chain'_cons], by norm_num,
    c1_sampling_monotonicity 1 (9 / 10) [0, 500000, 1000000]
      (by norm_num [List.chain'_cons]) (by norm_num) (Or.inr (Or.inl rfl))⟩

/-- `targetFrameCount duration fps` embeds
`Math.floor(videoInfo.duration * settings.fps)`, the target output count
used by every path (`videoDecoder.worker.ts` line 129,
`VideoFrameExtractor.tsx` lines 111, 259, 711, 975). -/
def targetFrameCount (duration fps : ℚ) : ℕ := (Int.floor (duration * fps)).toNat

/-- `extractFramesLegacyLoop blobOk n i` embeds the body of the legacy
seek-based loop `for (let i = 0; i < framesToExtract; i++)` of
`extractFramesLegacy` (`VideoFrameExtractor.tsx` lines 261-280 and
981-1009): each iteration seeks to `i / fps`, rasterises the visible
frame and appends one blob (`blobOk i` is whether `canvas.toBlob`
delivered a blob for iteration `i`; the first revision skips a null
blob, the second always pushes). The output records the indices pushed;
`n` counts the remaining iterations. -/
def extractFramesLegacyLoop (blobOk : ℕ → Bool) : ℕ → ℕ → List ℕ
  | 0, _ => []
  | n + 1, i =>
    if blobOk i then i :: extractFramesLegacyLoop blobOk n (i + 1)
    else extractFramesLegacyLoop blobOk n (i + 1)

/-- `extractFramesLegacy duration fps blobOk` embeds the whole legacy
extractor: `framesToExtract = Math.floor(duration * fps)` iterations
starting at index 0. -/
def extractFramesLegacy (duration fps : ℚ) (blobOk : ℕ → Bool) : List ℕ :=
  extractFramesLegacyLoop blobOk (targetFrameCount duration fps) 0

/-- In a fault-free run every iteration of the legacy loop pushes exactly
one blob. -/
theorem extractFramesLegacyLoop_length (blobOk : ℕ → Bool)
    (h : ∀ j, blobOk j = true) :
    ∀ (n i : ℕ), (extractFramesLegacyLoop blobOk n i).length = n := by
  intro n
  induction n with
  | zero => intro i; rfl
  | succ m ih =>
    intro i
    rw [extractFramesLegacyLoop, if_pos (h i), List.length_cons, ih (i + 1)]

/-- Decoded timestamps of the counterexample run for claim C2: a
10-second video whose decoded frames arrive every 0.9 s, all inside
`[0, 10 * 10^6)` microseconds. -/
def c2TsList : List ℚ :=
  [0, 900000, 1800000, 2700000, 3600000, 4500000, 5400000, 6300000,
   7200000, 8100000, 9000000, 9900000]

/-- Counterexample to claim C2: with duration `D = 10` s, requested rate
`R = 1` fps and the worker tolerance `k = 0.9`, a fault-free fast-path
run over strictly increasing timestamps inside `[0, D * 10^6)` keeps 12
frames, while the claim allows at most `floor(D*R) + 1 = 11` output
images. -/
theorem c2_count_bound_counterexample :
    List.Chain' (· < ·) c2TsList ∧
    (∀ t ∈ c2TsList, 0 ≤ t ∧ t < 10 * 1000000) ∧
    (keptTimestamps 1 (9 / 10) c2TsList).length = 12 ∧
    ¬((keptTimestamps 1 (9 / 10) c2TsList).length ≤
        targetFrameCount 10 1 + 1) := by
  have hkept : keptTimestamps 1 (9 / 10) c2TsList = c2TsList := by
    norm_num [keptTimestamps, runSampler, frameIntervalMicroseconds, c2TsList]
  have hfloor : targetFrameCount 10 1 = 10 := by
    have h10 : (10 : ℚ) * 1 = ((10 : ℤ) : ℚ) := by norm_num
    rw [targetFrameCount, h10, Int.floor_intCast]
    rfl
  refine ⟨by norm_num [List.chain'_cons, c2TsList], ?_, ?_, ?_⟩
  · intro t ht
    fin_cases ht <;> norm_num
  · rw [hkept]; rfl
  · rw [hkept, hfloor]
    norm_num [c2TsList]

/-- Claim C2, amended: a fault-free run using the fallback (legacy
seek-based) extractor produces exactly `floor(D*R)` output images, as
claimed; the fast path's bound `floor(D*R) + 1` fails (see the
counterexample), and the bound its tolerance sampling actually
guarantees, for any run whose decoded timestamps lie inside
`[0, D * 10^6)` microseconds, is `ceil(D*R/k)` output images, `k` the
path's tolerance factor. -/
theorem c2_count_bound_amended :
    (∀ (duration fps : ℚ) (blobOk : ℕ → Bool), (∀ j, blobOk j = true) →
        (extractFramesLegacy duration fps blobOk).length =
          targetFrameCount duration fps) ∧
    (∀ (D fps k : ℚ) (ts : List ℚ), 0 < fps → 0 < k → 0 ≤ D →
        (∀ t ∈ ts, 0 ≤ t ∧ t < D * 1000000) →
        ((keptTimestamps fps k ts).length : ℤ) ≤ Int.ceil (D * fps / k)) := by
  constructor
  · intro duration fps blobOk h
    rw [extractFramesLegacy, extractFramesLegacyLoop_length blobOk h]
  · intro D fps k ts hfps hk hD hts
    have hiv : 0 < frameIntervalMicroseconds fps := by
      rw [frameIntervalMicroseconds]; positivity
    have hx : 0 ≤ D * fps / k := by positivity
    rcases hkept : keptTimestamps fps k ts with _ | ⟨h0, rest⟩
    · simpa using Int.ceil_nonneg hx
    · have hchain :
          List.Chain (fun a b => a + frameIntervalMicroseconds fps * k ≤ b)
            (-(frameIntervalMicroseconds fps)) (keptTimestamps fps k ts) :=
        chain_runSampler _ _ ts
      rw [hkept] at hchain
      have hchain' :
          List.Chain (fun a b => a + frameIntervalMicroseconds fps * k ≤ b)
            h0 rest := by
        cases hchain with
        | cons _ h => exact h
      have hlast := chain_getLastD (frameIntervalMicroseconds fps * k) rest h0 hchain'
      have hh0mem : h0 ∈ ts := by
        refine runSampler_subset (frameIntervalMicroseconds fps * k)
          (-(frameIntervalMicroseconds fps)) ts h0 ?_
        rw [keptTimestamps] at hkept
        rw [hkept]
        exact List.mem_cons_self _ _
      have hLk : rest.getLastD h0 ∈ (h0 :: rest) := by
        cases rest with
        | nil => simp [List.getLastD]
        | cons c u => exact List.mem_cons_of_mem _ (getLastD_mem (c :: u) h0 (by simp))
      have hLmem : rest.getLastD h0 ∈ ts := by
        refine runSampler_subset (frameIntervalMicroseconds fps * k)
          (-(frameIntervalMicroseconds fps)) ts _ ?_
        rw [keptTimestamps] at hkept
        rw [hkept]
        exact hLk
      obtain ⟨hh0nonneg, _⟩ := hts h0 hh0mem
      obtain ⟨_, hLlt⟩ := hts _ hLmem
      have hlen :
          (rest.length : ℚ) * (frameIntervalMicroseconds fps * k) < D * 1000000 := by
        linarith
      have hfrac : (rest.length : ℚ) < D * fps / k := by
        rw [lt_div_iff hk]
        rw [frameIntervalMicroseconds] at hlen
        have hmul := mul_lt_mul_of_pos_right hlen hfps
        have hne : fps ≠ 0 := ne_of_gt hfps
        have hrw :
            (rest.length : ℚ) * (1000000 / fps * k) * fps =
              (rest.length : ℚ) * k * 1000000 := by
          field_simp
          ring
        rw [hrw] at hmul
        nlinarith [hmul]
      have hceil : (rest.length : ℤ) < Int.ceil (D * fps / k) :=
        Int.lt_ceil.mpr (by exact_mod_cast hfrac)
      rw [List.length_cons]
      push_cast
      linarith

/-- Witness for the amended claim C2: a 2-second video at 1 fps through
the fallback extractor, and a 1-second fast-path run keeping the single
frame at timestamp 0. -/
theorem c2_count_bound_amended_witness :
    ((extractFramesLegacy 2 1 (fun _ => true)).length = targetFrameCount 2 1) ∧
      ((keptTimestamps 1 (9 / 10) [0]).length : ℤ) ≤
        Int.ceil ((1 : ℚ) * 1 / (9 / 10)) :=
  ⟨c2_count_bound_amended.1 2 1 (fun _ => true) (fun _ => rfl),
    c2_count_bound_amended.2 1 1 (9 / 10) [0] (by norm_num) (by norm_num)
      (by norm_num) (by intro t ht; fin_cases ht; norm_num)⟩

/-- Error taxonomy of the extraction engine, as raised by the source:
`abortError` is `DOMException("Extraction cancelled", "AbortError")`,
the others are the `Error` values raised by the fast path
(`VideoFrameExtractor.tsx` lines 697, 745, 791, 867, 884, 914;
`videoDecoder.worker.ts` lines 261, 289, 307, 319, 249). -/
inductive ExtErr where
  | abortError
  | decodeError
  | parseError
  | configError
  | noVideoTrack
  | avcDescriptionMissing
deriving DecidableEq

/-- Embeds the outer catch's test
`e instanceof DOMException && e.name === "AbortError"`
(`VideoFrameExtractor.tsx` line 1146). -/
def ExtErr.isAbortError : ExtErr → Bool
  | .abortError => true
  | _ => false

/-- Outcome of one run as the caller observes it: a committed ordered
frame list (`setExtractedFrames(frames)`), a silent cancellation
(`"החילוץ בוטל"` status, no frames committed), or a user-visible failure
(`"שגיאה בחילוץ"` status). -/
inductive Outcome (α : Type) where
  | completed : List α → Outcome α
  | cancelled : Outcome α
  | failed : ExtErr → Outcome α
deriving DecidableEq

/-- `extractFramesRun` embeds the orchestrator `extractFrames` of the
second `VideoFrameExtractor.tsx` revision (lines 1087-1159):
if WebCodecs is supported and the file looks like MP4, try the fast
path; on a fast-path rejection, rethrow when `signal.aborted` is set,
otherwise fall back to the legacy extractor; a successful frame list is
committed only when the signal is not aborted; the outer catch maps an
`AbortError` to the cancelled status and anything else to the failure
status. `fast` and `legacy` are the settled results of
`extractFramesWebCodecs` and `extractFramesLegacy`. -/
def extractFramesRun {α : Type} (aborted useWebCodecs isMp4 : Bool)
    (fast legacy : Except ExtErr (List α)) : Outcome α :=
  let result : Except ExtErr (List α) :=
    if useWebCodecs && isMp4 then
      match fast with
      | .ok fs => .ok fs
      | .error e => if aborted then .error e else legacy
    else legacy
  match result with
  | .ok fs => if aborted then .cancelled else .completed fs
  | .error e => if e.isAbortError then .cancelled else .failed e

/-- Claim C3: when the fast (WebCodecs) path rejects with any error and
no user cancellation happened (the abort signal is not set), the
orchestrator silently restarts the whole extraction with the fallback
extractor — the committed output is exactly the fallback's own output,
which `extractFramesLegacy` produces starting at index 0, never a merge
with fast-path partial output — and the caller observes a failure
outcome only if the fallback itself also failed. -/
theorem c3_silent_fallback_restart {α : Type} (e : ExtErr) :
    (∀ fs : List α,
        extractFramesRun false true true (.error e) (.ok fs) = .completed fs) ∧
    (∀ (duration fps : ℚ) (blobOk : ℕ → Bool),
        extractFramesRun false true true (.error e)
            (.ok (extractFramesLegacy duration fps blobOk)) =
          .completed (extractFramesLegacy duration fps blobOk)) ∧
    (∀ e2 : ExtErr, e2.isAbortError = false →
        extractFramesRun (α := α) false true true (.error e) (.error e2) =
          .failed e2) ∧
    (∀ (legacy : Except ExtErr (List α)) (err : ExtErr),
        extractFramesRun false true true (.error e) legacy = .failed err →
          legacy = .error err) := by
  refine ⟨fun fs => rfl, fun duration fps blobOk => rfl, ?_, ?_⟩
  · intro e2 h2
    simp [extractFramesRun, h2]
  · intro legacy err h
    cases legacy with
    | ok fs => simp [extractFramesRun] at h
    | error e2 =>
      by_cases h2 : e2.isAbortError
      · simp [extractFramesRun, h2] at h
      · simp [extractFramesRun, h2] at h
        rw [h]

/-- Witness for claim C3: a decode error on the fast path, a fallback
that failed with a parse error; the caller sees exactly that failure. -/
theorem c3_silent_fallback_restart_witness :
    extractFramesRun (α := ℕ) false true true (.error ExtErr.decodeError)
        (.error ExtErr.parseError) = .failed ExtErr.parseError :=
  (c3_silent_fallback_restart ExtErr.decodeError).2.2.1 ExtErr.parseError rfl

/-- Embeds `codecString.startsWith("avc")`
(`videoDecoder.worker.ts` line 287, `VideoFrameExtractor.tsx` line 865);
codec identifiers are character lists. -/
def avcFamily (codec : List Char) : Bool :=
  List.isPrefixOf ['a', 'v', 'c'] codec

/-- Result of the parser `onReady` handler: whether it failed the
attempt, and whether it called `mp4boxFile.setExtractionOptions` +
`mp4boxFile.start()` — only after `start()` does the parser demux
samples and deliver them to `onSamples`, so `extractionStarted = false`
means no compressed sample is ever submitted to the decoder in this
attempt. -/
structure OnReadyResult where
  failure : Option ExtErr
  extractionStarted : Bool
deriving DecidableEq

/-- `processVideoOnReady` embeds the `onReady` handler of the worker
fast path (`videoDecoder.worker.ts` lines 258-309) and, identically, of
the second `VideoFrameExtractor.tsx` revision (lines 788-886): fail when
no video track exists; fail with `AVC description required for
WebCodecs` when the codec is in the AVC family and no description was
extracted, before configuring the decoder and before starting sample
extraction; otherwise configure (`configureOk` is whether
`decoder.configure` succeeded) and start extraction. -/
def processVideoOnReady (hasVideoTrack : Bool) (codec : List Char)
    (description : Option (List ℕ)) (configureOk : Bool) : OnReadyResult :=
  if !hasVideoTrack then ⟨some .noVideoTrack, false⟩
  else if avcFamily codec && description.isNone then
    ⟨some .avcDescriptionMissing, false⟩
  else if configureOk then ⟨none, true⟩
  else ⟨some .configError, false⟩

/-- `onReadyV1` embeds the `onReady` handler of the first
`VideoFrameExtractor.tsx` revision (lines 146-187): it attempts to find
an `avcC` description but performs no AVC check — it configures the
decoder with whatever description it has (possibly none) and starts
sample extraction regardless. -/
def onReadyV1 (hasVideoTrack : Bool) (codec : List Char)
    (description : Option (List ℕ)) (configureOk : Bool) : OnReadyResult :=
  if !hasVideoTrack then ⟨some .noVideoTrack, false⟩
  else if configureOk then ⟨none, true⟩
  else ⟨some .configError, false⟩

/-- Counterexample to claim C4: in the first `VideoFrameExtractor.tsx`
revision, a fast-path attempt on an AVC-family track (`avc1`) with no
extractable description does not fail — it starts sample extraction,
so arriving compressed samples are submitted to the decoder. The claim
"the fast path fails before submitting any compressed sample" is false
for this fast path. -/
theorem c4_avc_description_counterexample :
    avcFamily ['a', 'v', 'c', '1'] = true ∧
    onReadyV1 true ['a', 'v', 'c', '1'] none true =
      ⟨none, true⟩ ∧
    (onReadyV1 true ['a', 'v', 'c', '1'] none true).failure = none := by
  refine ⟨rfl, rfl, rfl⟩

/-- Claim C4, amended: in the worker fast path and the second
`VideoFrameExtractor.tsx` revision, an AVC-family track with no
extractable description fails the attempt before starting sample
extraction (hence before any compressed sample is submitted to the
decoder), and the orchestrated run then completes with the fallback
extractor's own output; the first revision performs no such check and
starts extraction with an undefined description. -/
theorem c4_avc_description_amended (codec : List Char) (configureOk : Bool)
    (havc : avcFamily codec = true) :
    processVideoOnReady true codec none configureOk =
      ⟨some .avcDescriptionMissing, false⟩ ∧
    (∀ fs : List ℕ,
        extractFramesRun false true true (.error ExtErr.avcDescriptionMissing)
            (.ok fs) = .completed fs) := by
  constructor
  · simp [processVideoOnReady, havc]
  · intro fs
    rfl

/-- Witness for the amended claim C4 at codec `avc1`. -/
theorem c4_avc_description_amended_witness :
    avcFamily ['a', 'v', 'c', '1'] = true ∧
      (processVideoOnReady true ['a', 'v', 'c', '1'] none true =
          ⟨some .avcDescriptionMissing, false⟩ ∧
        (∀ fs : List ℕ,
            extractFramesRun false true true
                (.error ExtErr.avcDescriptionMissing) (.ok fs) =
              .completed fs)) :=
  ⟨rfl, c4_avc_description_amended ['a', 'v', 'c', '1'] true rfl⟩

/-- `processSampleQueueSubmit decodeThrows samples` embeds the sample
submission loop of the worker fast path (`videoDecoder.worker.ts`
`processSampleQueue`, lines 222-256) and of the second
`VideoFrameExtractor.tsx` revision's `onSamples` (lines 888-910): each
queued sample is wrapped in an `EncodedVideoChunk` and passed to
`decoder.decode(chunk)` in order; if that throws (`decodeThrows s`),
the catch calls the attempt's `fail` helper and returns, submitting no
further sample. The backpressure wait preceding each submission is
modelled separately (see `WStep`); it does not change which samples are
submitted. Result: (samples submitted to the decoder, whether the
attempt was failed). -/
def processSampleQueueSubmit (decodeThrows : ℕ → Bool) : List ℕ → List ℕ × Bool
  | [] => ([], false)
  | s :: rest =>
    if decodeThrows s then ([], true)
    else
      let r := processSampleQueueSubmit decodeThrows rest
      (s :: r.1, r.2)

/-- `onSamplesV1 decodeThrows samples` embeds the `onSamples` handler of
the first `VideoFrameExtractor.tsx` revision (lines 189-206): a throwing
`decoder.decode(chunk)` is caught, logged with `console.warn`, and the
`for` loop continues with the next sample; the attempt is never
rejected from this handler. Result: (samples submitted, whether the
attempt was failed — always `false` here). -/
def onSamplesV1 (decodeThrows : ℕ → Bool) : List ℕ → List ℕ × Bool
  | [] => ([], false)
  | s :: rest =>
    let r := onSamplesV1 decodeThrows rest
    (if decodeThrows s then r.1 else s :: r.1, false)

/-- Counterexample to claim C5: in the first `VideoFrameExtractor.tsx`
revision, when decoding sample 0 throws, sample 1 — a subsequent sample
of the same attempt — is still submitted to the decoder and the attempt
does not reject: the throwing sample is silently skipped and decoding
continues. -/
theorem c5_fail_fast_counterexample :
    (fun s => s == 0) 0 = true ∧
    onSamplesV1 (fun s => s == 0) [0, 1] = ([1], false) := by
  exact ⟨rfl, rfl⟩

/-- Claim C5, amended: in the worker fast path and the second
`VideoFrameExtractor.tsx` revision, the submission loop submits exactly
the prefix of samples before the first one whose decode throws, and
fails the attempt exactly when some sample's decode throws — a throwing
sample is never skipped with decoding continuing. (The first revision
instead logs the throw and continues with later samples, see the
counterexample.) -/
theorem c5_fail_fast_amended (decodeThrows : ℕ → Bool) (samples : List ℕ) :
    processSampleQueueSubmit decodeThrows samples =
      (samples.takeWhile (fun s => !decodeThrows s), samples.any decodeThrows) := by
  induction samples with
  | nil => rfl
  | cons s rest ih =>
    by_cases h : decodeThrows s
    · simp [processSampleQueueSubmit, List.takeWhile, List.any, h]
    · simp [processSampleQueueSubmit, List.takeWhile, List.any, h, ih]

/-- Program counter of the worker drain loop `processSampleQueue`
(`videoDecoder.worker.ts` lines 222-256): `check` is the top of each
`while (sampleQueue.length > 0)` iteration together with the test
`decoder.decodeQueueSize >= MAX_DECODE_QUEUE_SIZE`; `waitCap` is the
suspension inside `await waitForDecoderCapacity(decoder)` (lines
54-71); `submitStep` is the synchronous continuation
`sampleQueue.shift()` … `decoder.decode(chunk)`; `finished` is loop
exit. -/
inductive WPC where
  | check
  | waitCap
  | submitStep
  | finished
deriving DecidableEq

/-- State of the drain loop: the pending `sampleQueue` (sample ids), the
decoder's `decodeQueueSize`, and the loop's program counter. -/
structure WState where
  queue : List ℕ
  pending : ℕ
  pc : WPC
deriving DecidableEq

/-- Labels for the drain-loop transitions. -/
inductive WAct where
  | passCheck
  | pauseCheck
  | stayWaiting
  | resume
  | decode
  | finish
  | enqueue
deriving DecidableEq

/-- Small-step semantics of the drain loop, with the constants
`MAX_DECODE_QUEUE_SIZE = 15` and `TARGET_DECODE_QUEUE_SIZE = 10`
(`videoDecoder.worker.ts` lines 50-51). `passCheck`/`pauseCheck` are the
two sides of `if (decoder.decodeQueueSize >= 15) await …`; while
suspended, each decoder `dequeue` event decrements the pending count and
`checkQueue` resolves the wait exactly when the count has reached 10 or
less (`stayWaiting`/`resume`); `onSamples` may append freshly demuxed
samples during the suspension (`enqueue`); `decode` is the synchronous
`shift` + `decoder.decode`, which grows the decoder's queue by one; the
loop exits when the queue is empty (`finish`). Dequeue events are
delivered only at the suspension point because the rest of an iteration
is synchronous JavaScript. -/
inductive WStep : WState → WAct → WState → Prop where
  | passCheck (x : ℕ) (r : List ℕ) (p : ℕ) (h : p < 15) :
      WStep ⟨x :: r, p, .check⟩ .passCheck ⟨x :: r, p, .submitStep⟩
  | pauseCheck (x : ℕ) (r : List ℕ) (p : ℕ) (h : 15 ≤ p) :
      WStep ⟨x :: r, p, .check⟩ .pauseCheck ⟨x :: r, p, .waitCap⟩
  | finish (p : ℕ) :
      WStep ⟨[], p, .check⟩ .finish ⟨[], p, .finished⟩
  | stayWaiting (q : List ℕ) (p : ℕ) (hp : 0 < p) (h : 10 < p - 1) :
      WStep ⟨q, p, .waitCap⟩ .stayWaiting ⟨q, p - 1, .waitCap⟩
  | resume (q : List ℕ) (p : ℕ) (hp : 0 < p) (h : p - 1 ≤ 10) :
      WStep ⟨q, p, .waitCap⟩ .resume ⟨q, p - 1, .submitStep⟩
  | enqueue (q more : List ℕ) (p : ℕ) :
      WStep ⟨q, p, .waitCap⟩ .enqueue ⟨q ++ more, p, .waitCap⟩
  | decode (x : ℕ) (r : List ℕ) (p : ℕ) :
      WStep ⟨x :: r, p, .submitStep⟩ .decode ⟨r, p + 1, .check⟩

/-- States reachable by the drain loop: it is entered at the top of the
`while` loop with any queue contents and any current decoder queue
size. -/
inductive ReachableW : WState → Prop where
  | init (q0 : List ℕ) (p0 : ℕ) : ReachableW ⟨q0, p0, .check⟩
  | step {s s' : WState} {a : WAct} :
      ReachableW s → WStep s a s' → ReachableW s'

/-- Invariant: whenever the drain loop is at the synchronous submission
continuation, the decoder's pending count is below the high-water
mark. -/
theorem reachable_submit_pending_lt :
    ∀ (s : WState), ReachableW s → s.pc = WPC.submitStep → s.pending < 15 := by
  intro s hs
  induction hs with
  | init q0 p0 => intro h; exact absurd h (by simp)
  | step hr hstep ih =>
    intro hpc
    cases hstep with
    | passCheck x r p h => exact h
    | pauseCheck x r p h => exact absurd hpc (by simp)
    | finish p => exact absurd hpc (by simp)
    | stayWaiting q p hp h => exact absurd hpc (by simp)
    | resume q p hp h =>
      show p - 1 < 15
      omega
    | enqueue q more p => exact absurd hpc (by simp)
    | decode x r p => exact absurd hpc (by simp)

/-- Claim C6: in the worker fast path, the drain loop never submits a
compressed sample to the decoder while the decoder's pending-decode
count is at or above the high-water mark of 15 (every `decode` step
happens with pending < 15), and once submission has paused it resumes
only after decoder dequeue events have brought the pending count down to
the low-water mark of 10 or below (every `resume` step lands at
pending ≤ 10). -/
theorem c6_backpressure (s s' : WState) (a : WAct)
    (hs : ReachableW s) (hstep : WStep s a s') :
    (a = WAct.decode → s.pending < 15) ∧
    (a = WAct.resume → s'.pending ≤ 10) := by
  cases hstep with
  | passCheck x r p h =>
    exact ⟨fun hc => absurd hc (by decide), fun hc => absurd hc (by decide)⟩
  | pauseCheck x r p h =>
    exact ⟨fun hc => absurd hc (by decide), fun hc => absurd hc (by decide)⟩
  | finish p =>
    exact ⟨fun hc => absurd hc (by decide), fun hc => absurd hc (by decide)⟩
  | stayWaiting q p hp h =>
    exact ⟨fun hc => absurd hc (by decide), fun hc => absurd hc (by decide)⟩
  | resume q p hp h =>
    exact ⟨fun hc => absurd hc (by decide), fun _ => h⟩
  | enqueue q more p =>
    exact ⟨fun hc => absurd hc (by decide), fun hc => absurd hc (by decide)⟩
  | decode x r p =>
    exact ⟨fun _ => reachable_submit_pending_lt _ hs rfl,
      fun hc => absurd hc (by decide)⟩

/-- Witness for claim C6: a concrete reachable submission step from an
empty decoder queue. -/
theorem c6_backpressure_witness :
    (WAct.decode = WAct.decode →
        (⟨[5], 0, WPC.submitStep⟩ : WState).pending < 15) ∧
    (WAct.decode = WAct.resume →
        (⟨[], 1, WPC.check⟩ : WState).pending ≤ 10) :=
  c6_backpressure ⟨[5], 0, .submitStep⟩ ⟨[], 1, .check⟩ .decode
    (ReachableW.step (ReachableW.init [5] 0) (WStep.passCheck 5 [] 0 (by decide)))
    (WStep.decode 5 [] 0)

/-- `decoderOutputCallback g last t encodeThrows` embeds one invocation
of the worker decoder `output` callback (`videoDecoder.worker.ts` lines
182-212) on a frame with timestamp `t`: inside the `try`, if the frame
is kept, `lastExtractedTimestamp` is updated and the frame is drawn and
encoded (`encodeThrows` is whether that drawing/encoding work threw);
`frame.close()` runs at the end of the `try`, and the `catch` also calls
`frame.close()`. Result: (new `lastExtractedTimestamp`, frames posted,
`frame.close()` calls in this invocation). The main-thread callbacks
(`VideoFrameExtractor.tsx` lines 118-141 and 749-777) have the same
shape without the `try`/`catch`. -/
def decoderOutputCallback (g last t : ℚ) (encodeThrows : Bool) : ℚ × ℕ × ℕ :=
  if g ≤ t - last then
    if encodeThrows then (t, 0, 1) else (t, 1, 1)
  else (last, 0, 1)

/-- `runDecoderOutputs g last frames` folds `decoderOutputCallback` over
the decoded frames of a run, in delivery order, accumulating the total
number of frames posted and the total number of `frame.close()`
calls. -/
def runDecoderOutputs (g : ℚ) : ℚ → List (ℚ × Bool) → ℕ × ℕ
  | _, [] => (0, 0)
  | last, (t, th) :: rest =>
    let r := decoderOutputCallback g last t th
    let rs := runDecoderOutputs g r.1 rest
    (r.2.1 + rs.1, r.2.2 + rs.2)

/-- Claim C7: every decoded frame delivered by the decoder's output
callback is released (`frame.close()`) exactly once — kept frames,
discarded frames and frames whose processing threw alike — and the
release happens within that frame's own callback invocation, before the
extraction proceeds to the next frame; over a whole run the number of
`close` calls equals the number of frames obtained. -/
theorem c7_frame_release :
    (∀ (g last t : ℚ) (encodeThrows : Bool),
        (decoderOutputCallback g last t encodeThrows).2.2 = 1) ∧
    (∀ (g last : ℚ) (frames : List (ℚ × Bool)),
        (runDecoderOutputs g last frames).2 = frames.length) := by
  have hone : ∀ (g last t : ℚ) (encodeThrows : Bool),
      (decoderOutputCallback g last t encodeThrows).2.2 = 1 := by
    intro g last t encodeThrows
    rw [decoderOutputCallback]
    split
    · split <;> rfl
    · rfl
  refine ⟨hone, ?_⟩
  intro g last frames
  induction frames generalizing last with
  | nil => rfl
  | cons f rest ih =>
    obtain ⟨t, th⟩ := f
    rw [runDecoderOutputs, List.length_cons]
    rw [hone g last t th, ih]
    omega

/-- `pushLoop blobValue acc completions` embeds the accumulation of
encoded output images into the `frames` array: each completed encode
for sequence index `i` appends its blob (`blobValue i`) via
`frames.push(blob)` inside the `canvas.toBlob` callback, in completion
order (`VideoFrameExtractor.tsx` lines 759-773, worker lines 195-204
posting in completion order likewise). Entries are (sequence index,
blob). -/
def pushLoop (blobValue : ℕ → ℕ) (acc : List (ℕ × ℕ)) : List ℕ → List (ℕ × ℕ)
  | [] => acc
  | i :: rest => pushLoop blobValue (acc ++ [(i, blobValue i)]) rest

/-- `framesPushedInCompletionOrder blobValue completionOrder` is the
final `frames` collection handed to packaging after all pending encode
callbacks have fired (`await Promise.all(pendingBlobs)` then
`resolve(frames)`), when the encodes complete in the order
`completionOrder` of their sequence indices. -/
def framesPushedInCompletionOrder (blobValue : ℕ → ℕ)
    (completionOrder : List ℕ) : List (ℕ × ℕ) :=
  pushLoop blobValue [] completionOrder

/-- Counterexample to claim C8: two encodes submitted with sequence
indices 0 then 1 whose completions fire in reverse order produce the
final collection `[(1, _), (0, _)]` — completion order, not sequence
index order; no sort by sequence index happens before packaging. -/
theorem c8_reassembly_counterexample :
    framesPushedInCompletionOrder (fun i => 10 * (i + 1)) [1, 0] =
      [(1, 20), (0, 10)] ∧
    ¬ List.Sorted (· ≤ ·)
        ((framesPushedInCompletionOrder (fun i => 10 * (i + 1)) [1, 0]).map
          Prod.fst) ∧
    List.Perm [1, 0] (List.range 2) := by
  refine ⟨rfl, ?_, by decide⟩
  intro h
  have := List.rel_of_sorted_cons (by exact h) 0 (by simp [framesPushedInCompletionOrder, pushLoop])
  omega

/-- The push loop appends one entry per completion, in completion
order. -/
theorem pushLoop_map_fst (blobValue : ℕ → ℕ) :
    ∀ (completions : List ℕ) (acc : List (ℕ × ℕ)),
      (pushLoop blobValue acc completions).map Prod.fst =
        acc.map Prod.fst ++ completions := by
  intro completions
  induction completions with
  | nil => intro acc; simp [pushLoop]
  | cons i rest ih =>
    intro acc
    rw [pushLoop, ih]
    simp

/-- Claim C8, amended: the final output collection is in encode
completion order — each blob is appended by its `toBlob` callback and no
sort by sequence index occurs before packaging — so it is ordered by
sequence index exactly when the completions fire in submission order
(in particular, for the in-order schedule the collection is sorted by
sequence index). -/
theorem c8_reassembly_amended :
    (∀ (blobValue : ℕ → ℕ) (completionOrder : List ℕ),
        (framesPushedInCompletionOrder blobValue completionOrder).map Prod.fst =
          completionOrder) ∧
    (∀ (blobValue : ℕ → ℕ) (n : ℕ),
        List.Sorted (· ≤ ·)
          ((framesPushedInCompletionOrder blobValue (List.range n)).map
            Prod.fst)) := by
  have hmap : ∀ (blobValue : ℕ → ℕ) (completionOrder : List ℕ),
      (framesPushedInCompletionOrder blobValue completionOrder).map Prod.fst =
        completionOrder := by
    intro blobValue completionOrder
    rw [framesPushedInCompletionOrder, pushLoop_map_fst]
    rfl
  refine ⟨hmap, ?_⟩
  intro blobValue n
  rw [hmap]
  exact List.sorted_le_range n

/-- `cancelExtraction` embeds the cancel handler
(`VideoFrameExtractor.tsx` lines 1161-1167): if `abortControllerRef`
currently holds a controller, call `controller.abort()`. The state is
`none` when no run is active (the `finally` of `extractFrames` sets the
ref to `null`, line 1157) or `some (aborted, fired)` where `aborted` is
the signal's aborted flag and `fired` counts abort events delivered to
listeners — `abort()` on an already-aborted controller is a no-op that
fires no further event. -/
def cancelExtraction : Option (Bool × ℕ) → Option (Bool × ℕ)
  | none => none
  | some (aborted, fired) => some (true, if aborted then fired else fired + 1)

/-- Claim C9: cancellation is idempotent — cancelling twice equals
cancelling once, cancelling after the run has completed (controller ref
cleared) is a no-op producing no error, and a second `abort()` fires no
duplicate event — and a user-cancelled run ends with the distinguished
cancelled outcome rather than a generic failure: a fast-path rejection
carrying the `AbortError` while the signal is aborted is rethrown as
cancellation, the fallback extractor's result being ignored (no
retry), and never reported as `failed`. -/
theorem c9_idempotent_cancellation :
    (∀ s : Option (Bool × ℕ), cancelExtraction (cancelExtraction s) =
        cancelExtraction s) ∧
    (cancelExtraction none = none) ∧
    (∀ n : ℕ, cancelExtraction (some (true, n)) = some (true, n)) ∧
    (∀ legacy : Except ExtErr (List ℕ),
        extractFramesRun true true true (.error ExtErr.abortError) legacy =
          .cancelled) ∧
    (∀ (legacy : Except ExtErr (List ℕ)) (e : ExtErr),
        extractFramesRun true true true (.error ExtErr.abortError) legacy ≠
          .failed e) := by
  refine ⟨?_, rfl, fun n => rfl, fun legacy => rfl, ?_⟩
  · intro s
    rcases s with _ | ⟨a, n⟩
    · rfl
    · cases a <;> rfl
  · intro legacy e h
    cases h

/-- State observed by the single-settlement `fail` helper of a fast-path
attempt: the `rejected` and `decoderClosed` flags and how many times the
helper has called `mp4boxFile.stop()`, `decoder.close()` and
posted/rejected the attempt's error. -/
structure AttemptState where
  rejected : Bool
  decoderClosed : Bool
  parserStops : ℕ
  decoderCloses : ℕ
  errorPosts : ℕ
deriving DecidableEq

/-- `failHelper` embeds the `fail` helper of the worker fast path
(`videoDecoder.worker.ts` lines 151-173) — the second
`VideoFrameExtractor.tsx` revision's helper (lines 724-741) is the same
without the `decoderClosed` guard: if `rejected` is already set, return
immediately; otherwise set it, stop the parser, close the decoder if
not already closed (setting `decoderClosed`), and post/reject the
attempt's error once. -/
def failHelper (s : AttemptState) : AttemptState :=
  if s.rejected then s
  else
    { rejected := true
      decoderClosed := true
      parserStops := s.parserStops + 1
      decoderCloses := s.decoderCloses + (if s.decoderClosed then 0 else 1)
      errorPosts := s.errorPosts + 1 }

/-- The attempt state at the start of a fast-path attempt. -/
def initialAttempt : AttemptState := ⟨false, false, 0, 0, 0⟩

/-- Claim C10: each fast-path attempt settles at most once — once the
`rejected` flag is set every later invocation of the `fail` helper is a
no-op, so after any positive number of terminal events (decoder error,
parser error, decode exception, abort) routed through the helper, the
attempt's error has been posted exactly once, the parser stopped exactly
once and the decoder closed exactly once. -/
theorem c10_single_settlement :
    (∀ s : AttemptState, s.rejected = true → failHelper s = s) ∧
    (∀ s : AttemptState, failHelper (failHelper s) = failHelper s) ∧
    (∀ m : ℕ, 1 ≤ m →
        Nat.iterate failHelper m initialAttempt = ⟨true, true, 1, 1, 1⟩) := by
  have hstop : ∀ s : AttemptState, s.rejected = true → failHelper s = s := by
    intro s h
    rw [failHelper, if_pos h]
  refine ⟨hstop, ?_, ?_⟩
  · intro s
    by_cases h : s.rejected
    · rw [hstop s h]
      exact hstop s h
    · exact hstop _ (by rw [failHelper, if_neg h])
  · intro m hm
    induction m with
    | zero => omega
    | succ n ih =>
      rcases Nat.eq_zero_or_pos n with rfl | hn
      · rfl
      · rw [Function.iterate_succ_apply', ih hn]
        exact hstop _ rfl

/-- Witness for claim C10: three terminal events in a row settle the
attempt once, and the helper is a no-op on an already-rejected state. -/
theorem c10_single_settlement_witness :
    failHelper ⟨true, false, 3, 0, 1⟩ = ⟨true, false, 3, 0, 1⟩ ∧
      Nat.iterate failHelper 3 initialAttempt = ⟨true, true, 1, 1, 1⟩ :=
  ⟨c10_single_settlement.1 ⟨true, false, 3, 0, 1⟩ rfl,
    c10_single_settlement.2.2 3 (by decide)⟩
